import Mathlib

/-!
Shallow embedding of `pa-permission-time-analyzer` (src/main.py) and proofs
about its traversal-and-classification pipeline.

Modelling conventions:
* Paths are lists of path segments (`PathT`); `os.path.join(root, file)`
  becomes `root ++ [file]`.
* Timestamps and the cutoff are integers (`Int`); only their ordering and
  exact integer arithmetic matter to the properties below.
* `os.stat` is a function `PathT → Except OSErr StatInfo`; `Except.error`
  models a raised `OSError`.
* A Python result dictionary is `FileDict := Option AnalysisRecord`;
  `none` models the empty dictionary returned by `analyze_file` when the
  stat fails, `some r` the fully populated dictionary.
* `logging.error` / `logging.warning` calls are collected into lists of
  `LogEvent` values returned alongside results.
* The filesystem tree seen by `os.path.isfile` / `os.path.isdir` /
  `os.walk` is the mutual inductive `FSNode` / `FSEntries`; `FSNode.other`
  models a root path that is neither a regular file nor a directory.
* The third-party `pathspec` matcher is abstracted as a Boolean predicate
  on paths (`PathSpec`), exactly the interface `is_excluded` consumes.
-/

namespace PaTime

/-- A filesystem path, as a list of path segments. -/
abbrev PathT := List String

/-- The message carried by a raised `OSError`. -/
abbrev OSErr := String

/-- Render a path for log messages, as `os.path.join` would. -/
def pathStr (p : PathT) : String := String.intercalate "/" p

/-- The fields of `os.stat_result` that `analyze_file` reads. -/
structure StatInfo where
  st_mode : Nat
  st_atime : Int
  st_mtime : Int
deriving Repr, DecidableEq

/-- One record emitted to the global logging sink. -/
inductive LogEvent where
  | error (msg : String)
  | warning (msg : String)
  | info (msg : String)
deriving Repr, DecidableEq

/-- Count of error-level events in a log. -/
def errorCount (logs : List LogEvent) : Nat :=
  (logs.filter fun e => match e with | LogEvent.error _ => true | _ => false).length

/-- CPython `stat.filemode`: pick the first table entry whose bits are all
set in `mode`, else a dash. -/
def filemodeEntry (mode : Nat) : List (Nat × Char) → Char
  | [] => '-'
  | (bit, c) :: rest => if mode &&& bit == bit then c else filemodeEntry mode rest

/-- CPython `stat._filemode_table` (constants in octal: S_IFLNK 0o120000,
S_IFSOCK 0o140000, S_IFREG 0o100000, S_IFBLK 0o060000, S_IFDIR 0o040000,
S_IFCHR 0o020000, S_IFIFO 0o010000; S_ISUID 0o4000, S_ISGID 0o2000,
S_ISVTX 0o1000; rwx bits per class). -/
def filemode_table : List (List (Nat × Char)) :=
  [ [(40960, 'l'), (49152, 's'), (32768, '-'), (24576, 'b'),
     (16384, 'd'), (8192, 'c'), (4096, 'p')],
    [(256, 'r')], [(128, 'w')],
    [(2048 + 64, 's'), (64, 'x'), (2048, 'S')],
    [(32, 'r')], [(16, 'w')],
    [(1024 + 8, 's'), (8, 'x'), (1024, 'S')],
    [(4, 'r')], [(2, 'w')],
    [(512 + 1, 't'), (1, 'x'), (512, 'T')] ]

/-- CPython `stat.filemode(mode)`: the 10-character permission string. -/
def filemode (mode : Nat) : String :=
  String.mk (filemode_table.map (filemodeEntry mode))

/-- The dictionary built by `analyze_file` on a successful stat. -/
structure AnalysisRecord where
  file_path : PathT
  permissions : String
  last_access_time : Int
  last_modified_time : Int
  is_dormant : Bool
deriving Repr, DecidableEq

/-- A result dictionary: `none` is the empty dictionary, `some r` a fully
populated one. -/
abbrev FileDict := Option AnalysisRecord

/-- `analyze_file`, body: the `try` block reads the stat and builds the full
dictionary; the `except OSError` handler logs an error and returns the
empty dictionary. -/
def analyze_file_run (stat : PathT → Except OSErr StatInfo) (file_path : PathT)
    (cutoff_timestamp : Int) : FileDict × List LogEvent :=
  match stat file_path with
  | Except.ok stat_info =>
      (some
        { file_path := file_path
          permissions := filemode stat_info.st_mode
          last_access_time := stat_info.st_atime
          last_modified_time := stat_info.st_mtime
          is_dormant := decide (stat_info.st_atime < cutoff_timestamp) &&
                        decide (stat_info.st_mtime < cutoff_timestamp) },
       [])
  | Except.error e =>
      (none,
       [LogEvent.error ("Error getting file stats for " ++ pathStr file_path ++ ": " ++ e)])

/-- `analyze_file` as seen by callers: it may in principle raise (hence the
`Except` type), but every path through its body returns normally. -/
def analyze_file (stat : PathT → Except OSErr StatInfo) (file_path : PathT)
    (cutoff_timestamp : Int) : Except OSErr (FileDict × List LogEvent) :=
  Except.ok (analyze_file_run stat file_path cutoff_timestamp)

/-- The `pathspec.PathSpec` matcher, abstracted to the predicate interface
`is_excluded` uses (`match_file`). -/
def PathSpec := PathT → Bool

/-- `is_excluded`: `None` patterns never exclude; otherwise defer to the
matcher. -/
def is_excluded (path : PathT) (exclude_patterns : Option PathSpec) : Bool :=
  match exclude_patterns with
  | none => false
  | some spec => spec path

/-- Outcome of `open(exclude_file).readlines()`. -/
inductive ReadOutcome where
  | ok (lines : List String)
  | notFound
  | failed (msg : String)

/-- `load_exclude_patterns`: build a matcher from the pattern lines
(`compile` abstracts `pathspec.PathSpec(lines)`); on `FileNotFoundError`
log a warning, on any other exception log an error, and return `None`
either way. -/
def load_exclude_patterns (compile : List String → PathSpec) (exclude_file : String)
    (read : ReadOutcome) : Option PathSpec × List LogEvent :=
  match read with
  | ReadOutcome.ok lines => (some (compile lines), [])
  | ReadOutcome.notFound =>
      (none, [LogEvent.warning ("Exclude file not found: " ++ exclude_file)])
  | ReadOutcome.failed e =>
      (none, [LogEvent.error ("Error loading exclude file " ++ exclude_file ++ ": " ++ e)])

mutual
/-- A node of the filesystem tree: a regular file, a directory with named
entries, or anything else (nonexistent or unsupported type). -/
inductive FSNode where
  | file : FSNode
  | other : FSNode
  | dir : FSEntries → FSNode

/-- The named entries of a directory, in listing order. -/
inductive FSEntries where
  | nil : FSEntries
  | cons : String → FSNode → FSEntries → FSEntries
end

mutual
/-- `os.walk(p)` restricted to what the code consumes: the full paths of the
non-directory entries reachable beneath a node, in `os.walk` top-down
order (the current directory's files first, then each subdirectory). -/
def walkFiles (p : PathT) : FSNode → List PathT
  | FSNode.file => []
  | FSNode.other => []
  | FSNode.dir es => walkHere p es ++ walkSub p es

/-- The files (non-directory entries) listed directly in a directory. -/
def walkHere (p : PathT) : FSEntries → List PathT
  | FSEntries.nil => []
  | FSEntries.cons _ (FSNode.dir _) rest => walkHere p rest
  | FSEntries.cons n _ rest => (p ++ [n]) :: walkHere p rest

/-- The recursive walk into each subdirectory, in listing order. -/
def walkSub (p : PathT) : FSEntries → List PathT
  | FSEntries.nil => []
  | FSEntries.cons n (FSNode.dir es) rest =>
      walkFiles (p ++ [n]) (FSNode.dir es) ++ walkSub p rest
  | FSEntries.cons _ _ rest => walkSub p rest
end

/-- What `analyze_permissions` accumulates: the `results` list, the log
events emitted, and how many times the `except OSError` handler of the
directory-walk loop ran. -/
structure APOut where
  results : List FileDict
  logs : List LogEvent
  catchCount : Nat
deriving Repr

/-- `time.time() - (days * 24 * 60 * 60)`, the cutoff computed once at the
top of `analyze_permissions`. -/
def cutoff_timestamp (now : Int) (days : Int) : Int :=
  now - days * 24 * 60 * 60

/-- The inner loop of the directory branch of `analyze_permissions`: for
each walked full path, skip it if excluded, otherwise call `analyze_file`
inside `try ... except OSError` and append the returned dictionary. -/
def dirLoop (stat : PathT → Except OSErr StatInfo) (cutoff : Int)
    (exclude_patterns : Option PathSpec) : List PathT → APOut
  | [] => ⟨[], [], 0⟩
  | full_path :: rest =>
    let tail := dirLoop stat cutoff exclude_patterns rest
    if is_excluded full_path exclude_patterns then tail
    else
      match analyze_file stat full_path cutoff with
      | Except.ok (d, l) => ⟨d :: tail.results, l ++ tail.logs, tail.catchCount⟩
      | Except.error e =>
          ⟨tail.results,
           LogEvent.error ("Error analyzing " ++ pathStr full_path ++ ": " ++ e) :: tail.logs,
           tail.catchCount + 1⟩

/-- `analyze_permissions(path, days, exclude_patterns)`.  `root` is the
filesystem node `path` denotes (`FSNode.other` when it is neither file nor
directory); the single-file branch has no handler around `analyze_file`,
so an exception there would propagate (`Except.error`). -/
def analyze_permissions (stat : PathT → Except OSErr StatInfo) (now : Int)
    (path : PathT) (days : Int) (root : FSNode)
    (exclude_patterns : Option PathSpec) : Except OSErr APOut :=
  let cutoff := cutoff_timestamp now days
  match root with
  | FSNode.file =>
      if is_excluded path exclude_patterns then Except.ok ⟨[], [], 0⟩
      else
        match analyze_file stat path cutoff with
        | Except.ok (d, l) => Except.ok ⟨[d], l, 0⟩
        | Except.error e => Except.error e
  | FSNode.dir es =>
      Except.ok (dirLoop stat cutoff exclude_patterns (walkFiles path (FSNode.dir es)))
  | FSNode.other =>
      Except.ok ⟨[], [LogEvent.error ("Path " ++ pathStr path ++ " is not a valid file or directory.")], 0⟩

mutual
/-- The number of non-directory entries reachable beneath a node (the files
`os.walk` would report). -/
def countFiles : FSNode → Nat
  | FSNode.file => 0
  | FSNode.other => 0
  | FSNode.dir es => countEntries es

/-- The number of reachable non-directory entries beneath a directory's
entry list. -/
def countEntries : FSEntries → Nat
  | FSEntries.nil => 0
  | FSEntries.cons _ (FSNode.dir es) rest => countEntries es + countEntries rest
  | FSEntries.cons _ _ rest => 1 + countEntries rest
end

/-- The names of a directory's entries, in listing order. -/
def entryNames : FSEntries → List String
  | FSEntries.nil => []
  | FSEntries.cons n _ rest => n :: entryNames rest

mutual
/-- Well-formed tree: in every directory the entry names are distinct (the
invariant every real directory satisfies). -/
def wfNode : FSNode → Bool
  | FSNode.file => true
  | FSNode.other => true
  | FSNode.dir es => decide (entryNames es).Nodup && wfEntries es

/-- All nodes in an entry list are well-formed. -/
def wfEntries : FSEntries → Bool
  | FSEntries.nil => true
  | FSEntries.cons _ t rest => wfNode t && wfEntries rest
end

/-- The entry list has a non-directory entry named `n`. -/
def FileEntryAt (n : String) : FSEntries → Bool
  | FSEntries.nil => false
  | FSEntries.cons _ (FSNode.dir _) rest => FileEntryAt n rest
  | FSEntries.cons m _ rest => m == n || FileEntryAt n rest

/-- The entry list has a directory entry named `n` with entries `sub`. -/
inductive DirEntryAt : String → FSEntries → FSEntries → Prop where
  | head (n : String) (sub rest : FSEntries) :
      DirEntryAt n sub (FSEntries.cons n (FSNode.dir sub) rest)
  | tail (n : String) (sub : FSEntries) (m : String) (t : FSNode) (rest : FSEntries) :
      DirEntryAt n sub rest → DirEntryAt n sub (FSEntries.cons m t rest)

/-- A path `q` is a reachable leaf file beneath a directory rooted at path
`p`: either a non-directory entry of the directory itself, or reachable
inside one of its subdirectories. -/
inductive ReachableFile : PathT → FSNode → PathT → Prop where
  | here (p : PathT) (es : FSEntries) (n : String) :
      FileEntryAt n es = true → ReachableFile p (FSNode.dir es) (p ++ [n])
  | sub (p : PathT) (es : FSEntries) (n : String) (sub : FSEntries) (q : PathT) :
      DirEntryAt n sub es → ReachableFile (p ++ [n]) (FSNode.dir sub) q →
      ReachableFile p (FSNode.dir es) q

/-- One filesystem read performed by the program. -/
inductive FsRead where
  | existsCheck (p : PathT)
  | isFileCheck (p : PathT)
  | isDirCheck (p : PathT)
  | statRead (p : PathT)
  | readFile (f : String)
deriving Repr, DecidableEq

/-- The filesystem reads `analyze_permissions` performs: the file/directory
type checks on the root, then a stat for each non-excluded walked file (in
the single-file branch, for the root itself when not excluded). -/
def analyzeReads (path : PathT) (root : FSNode)
    (exclude_patterns : Option PathSpec) : List FsRead :=
  match root with
  | FSNode.file =>
      FsRead.isFileCheck path ::
        (if is_excluded path exclude_patterns then [] else [FsRead.statRead path])
  | FSNode.dir es =>
      FsRead.isFileCheck path :: FsRead.isDirCheck path ::
        ((walkFiles path (FSNode.dir es)).filter
            (fun f => !is_excluded f exclude_patterns)).map FsRead.statRead
  | FSNode.other => [FsRead.isFileCheck path, FsRead.isDirCheck path]

/-- The command-line arguments after parsing. -/
structure Args where
  path : PathT
  days : Int
  output : String
  exclude : Option String

/-- What a run of `main` produces, beyond its rendered report:
whether `analyze_permissions` was entered, the result list (absent when
the run was rejected or an exception escaped), the log, and the trace of
filesystem reads in order. -/
structure MainOut where
  entered_analysis : Bool
  results : Option (List FileDict)
  logs : List LogEvent
  fs_reads : List FsRead

/-- `main()`: validate that the path exists, then that `days` is positive;
load exclusion patterns when `--exclude` was given; run
`analyze_permissions` (report rendering is external and not modelled;
an exception escaping the analysis would be caught by the outer
`except Exception` and logged). `exists_` is what `os.path.exists(path)`
returns and `excludeRead` the outcome of opening the exclude file. -/
def main_model (stat : PathT → Except OSErr StatInfo) (now : Int)
    (compile : List String → PathSpec) (args : Args) (exists_ : Bool)
    (root : FSNode) (excludeRead : ReadOutcome) : MainOut :=
  let reads0 := [FsRead.existsCheck args.path]
  if !exists_ then
    { entered_analysis := false, results := none
      logs := [LogEvent.error ("Error: The specified path " ++ pathStr args.path ++ " does not exist.")]
      fs_reads := reads0 }
  else if args.days ≤ 0 then
    { entered_analysis := false, results := none
      logs := [LogEvent.error "Error: The number of days must be a positive integer."]
      fs_reads := reads0 }
  else
    let loaded : Option PathSpec × List LogEvent × List FsRead :=
      match args.exclude with
      | none => (none, [], [])
      | some f =>
          let le := load_exclude_patterns compile f excludeRead
          (le.1, le.2, [FsRead.readFile f])
    match analyze_permissions stat now args.path args.days root loaded.1 with
    | Except.ok out =>
        { entered_analysis := true, results := some out.results
          logs := loaded.2.1 ++ out.logs
          fs_reads := reads0 ++ loaded.2.2 ++ analyzeReads args.path root loaded.1 }
    | Except.error e =>
        { entered_analysis := true, results := none
          logs := loaded.2.1 ++ [LogEvent.error ("An unexpected error occurred: " ++ e)]
          fs_reads := reads0 ++ loaded.2.2 ++ analyzeReads args.path root loaded.1 }

/-- Two file entries `a` and `b`, used as a concrete directory. -/
def demoEntries : FSEntries :=
  FSEntries.cons "a" FSNode.file (FSEntries.cons "b" FSNode.file FSEntries.nil)

/-- A concrete two-file directory (entries `a` and `b`), used to exercise
a run in which exactly one stat fails. -/
def demoTree : FSNode := FSNode.dir demoEntries

/-- Concrete stat behavior for `demoTree` rooted at `r`: `r/b` raises
`OSError`, everything else succeeds with mode `0o100644`, atime 10,
mtime 20. -/
def demoStat : PathT → Except OSErr StatInfo :=
  fun p =>
    if p = ["r", "b"] then Except.error "Permission denied"
    else Except.ok ⟨33188, 10, 20⟩

/-- Concrete arguments with `days = 0`. -/
def daysZeroArgs : Args := ⟨["r"], 0, "report.txt", none⟩

/-! ### Helper lemmas -/

theorem analyze_file_run_ok (stat : PathT → Except OSErr StatInfo) (p : PathT)
    (c : Int) (si : StatInfo) (h : stat p = Except.ok si) :
    analyze_file_run stat p c =
      (some
        { file_path := p
          permissions := filemode si.st_mode
          last_access_time := si.st_atime
          last_modified_time := si.st_mtime
          is_dormant := decide (si.st_atime < c) && decide (si.st_mtime < c) },
       []) := by
  simp [analyze_file_run, h]

theorem analyze_file_run_err (stat : PathT → Except OSErr StatInfo) (p : PathT)
    (c : Int) (e : OSErr) (h : stat p = Except.error e) :
    analyze_file_run stat p c =
      (none, [LogEvent.error ("Error getting file stats for " ++ pathStr p ++ ": " ++ e)]) := by
  simp [analyze_file_run, h]

/-- Normal form of the directory-walk loop: the appended dictionaries are
exactly the `analyze_file` outputs of the non-excluded paths, the logs are
those calls' logs, and the `except OSError` handler never runs. -/
theorem dirLoop_eq (stat : PathT → Except OSErr StatInfo) (cutoff : Int)
    (m : Option PathSpec) (fs : List PathT) :
    dirLoop stat cutoff m fs =
      ⟨(fs.filter fun f => !is_excluded f m).map
          (fun f => (analyze_file_run stat f cutoff).1),
       ((fs.filter fun f => !is_excluded f m).map
          (fun f => (analyze_file_run stat f cutoff).2)).flatten,
       0⟩ := by
  induction fs with
  | nil => rfl
  | cons f rest ih =>
    by_cases h : is_excluded f m
    · simp [dirLoop, ih, h]
    · simp [dirLoop, analyze_file, ih, h]

/-- `analyze_permissions` never lets an exception escape. -/
theorem analyze_permissions_ok (stat : PathT → Except OSErr StatInfo) (now : Int)
    (path : PathT) (days : Int) (root : FSNode) (m : Option PathSpec) :
    ∃ out, analyze_permissions stat now path days root m = Except.ok out := by
  cases root with
  | file =>
    by_cases h : is_excluded path m
    · refine ⟨⟨[], [], 0⟩, ?_⟩
      simp [analyze_permissions, h]
    · refine ⟨⟨[(analyze_file_run stat path (cutoff_timestamp now days)).1],
               (analyze_file_run stat path (cutoff_timestamp now days)).2, 0⟩, ?_⟩
      simp [analyze_permissions, h, analyze_file]
  | other => exact ⟨_, rfl⟩
  | dir es => exact ⟨_, rfl⟩

/-! ### Lemmas about the recursive walk -/

theorem mem_walkHere : ∀ (p : PathT) (es : FSEntries) (q : PathT),
    q ∈ walkHere p es ↔ ∃ n, q = p ++ [n] ∧ FileEntryAt n es = true
  | p, FSEntries.nil, q => by
    simp [walkHere, FileEntryAt]
  | p, FSEntries.cons n (FSNode.dir sub) rest, q => by
    rw [show walkHere p (FSEntries.cons n (FSNode.dir sub) rest) = walkHere p rest from rfl]
    rw [mem_walkHere p rest q]
    simp [FileEntryAt]
  | p, FSEntries.cons n FSNode.file rest, q => by
    rw [show walkHere p (FSEntries.cons n FSNode.file rest) =
          (p ++ [n]) :: walkHere p rest from rfl]
    rw [List.mem_cons, mem_walkHere p rest q]
    constructor
    · rintro (h | ⟨m, hm, hf⟩)
      · exact ⟨n, h, by simp [FileEntryAt]⟩
      · exact ⟨m, hm, by simp [FileEntryAt, hf]⟩
    · rintro ⟨m, hm, hf⟩
      simp only [FileEntryAt, Bool.or_eq_true, beq_iff_eq] at hf
      rcases hf with h | h
      · exact Or.inl (by rw [hm, h])
      · exact Or.inr ⟨m, hm, h⟩
  | p, FSEntries.cons n FSNode.other rest, q => by
    rw [show walkHere p (FSEntries.cons n FSNode.other rest) =
          (p ++ [n]) :: walkHere p rest from rfl]
    rw [List.mem_cons, mem_walkHere p rest q]
    constructor
    · rintro (h | ⟨m, hm, hf⟩)
      · exact ⟨n, h, by simp [FileEntryAt]⟩
      · exact ⟨m, hm, by simp [FileEntryAt, hf]⟩
    · rintro ⟨m, hm, hf⟩
      simp only [FileEntryAt, Bool.or_eq_true, beq_iff_eq] at hf
      rcases hf with h | h
      · exact Or.inl (by rw [hm, h])
      · exact Or.inr ⟨m, hm, h⟩

theorem mem_walkSub : ∀ (p : PathT) (es : FSEntries) (q : PathT),
    q ∈ walkSub p es →
      ∃ n sub, DirEntryAt n sub es ∧ q ∈ walkFiles (p ++ [n]) (FSNode.dir sub)
  | p, FSEntries.cons n (FSNode.dir sub) rest, q => by
    rw [show walkSub p (FSEntries.cons n (FSNode.dir sub) rest) =
          walkFiles (p ++ [n]) (FSNode.dir sub) ++ walkSub p rest from rfl]
    rw [List.mem_append]
    rintro (h | h)
    · exact ⟨n, sub, DirEntryAt.head n sub rest, h⟩
    · obtain ⟨m, sub2, hd, hq⟩ := mem_walkSub p rest q h
      exact ⟨m, sub2, DirEntryAt.tail m sub2 n (FSNode.dir sub) rest hd, hq⟩
  | p, FSEntries.cons n FSNode.file rest, q => by
    rw [show walkSub p (FSEntries.cons n FSNode.file rest) = walkSub p rest from rfl]
    intro h
    obtain ⟨m, sub2, hd, hq⟩ := mem_walkSub p rest q h
    exact ⟨m, sub2, DirEntryAt.tail m sub2 n FSNode.file rest hd, hq⟩
  | p, FSEntries.cons n FSNode.other rest, q => by
    rw [show walkSub p (FSEntries.cons n FSNode.other rest) = walkSub p rest from rfl]
    intro h
    obtain ⟨m, sub2, hd, hq⟩ := mem_walkSub p rest q h
    exact ⟨m, sub2, DirEntryAt.tail m sub2 n FSNode.other rest hd, hq⟩
  | _, FSEntries.nil, _ => by
    intro h
    simp [walkSub] at h

theorem walkSub_extends : ∀ (p : PathT) (es : FSEntries) (q : PathT),
    q ∈ walkSub p es → ∃ n s, q = p ++ n :: s ∧ s ≠ []
  | p, FSEntries.cons n (FSNode.dir sub) rest, q => by
    rw [show walkSub p (FSEntries.cons n (FSNode.dir sub) rest) =
          walkFiles (p ++ [n]) (FSNode.dir sub) ++ walkSub p rest from rfl]
    rw [show walkFiles (p ++ [n]) (FSNode.dir sub) =
          walkHere (p ++ [n]) sub ++ walkSub (p ++ [n]) sub from rfl]
    rw [List.mem_append, List.mem_append]
    rintro ((h | h) | h)
    · obtain ⟨m, hm, _⟩ := (mem_walkHere (p ++ [n]) sub q).1 h
      exact ⟨n, [m], by simp [hm], by simp⟩
    · obtain ⟨m, s, hq, _⟩ := walkSub_extends (p ++ [n]) sub q h
      exact ⟨n, m :: s, by simp [hq], by simp⟩
    · exact walkSub_extends p rest q h
  | p, FSEntries.cons n FSNode.file rest, q => by
    rw [show walkSub p (FSEntries.cons n FSNode.file rest) = walkSub p rest from rfl]
    exact walkSub_extends p rest q
  | p, FSEntries.cons n FSNode.other rest, q => by
    rw [show walkSub p (FSEntries.cons n FSNode.other rest) = walkSub p rest from rfl]
    exact walkSub_extends p rest q
  | _, FSEntries.nil, _ => by
    intro h
    simp [walkSub] at h

theorem fileEntryAt_mem_names : ∀ (n : String) (es : FSEntries),
    FileEntryAt n es = true → n ∈ entryNames es
  | n, FSEntries.cons m (FSNode.dir sub) rest => by
    intro h
    rw [show FileEntryAt n (FSEntries.cons m (FSNode.dir sub) rest) =
          FileEntryAt n rest from rfl] at h
    simp [entryNames]
    exact Or.inr (fileEntryAt_mem_names n rest h)
  | n, FSEntries.cons m FSNode.file rest => by
    intro h
    rw [show FileEntryAt n (FSEntries.cons m FSNode.file rest) =
          (m == n || FileEntryAt n rest) from rfl] at h
    simp only [Bool.or_eq_true, beq_iff_eq] at h
    simp [entryNames]
    rcases h with h | h
    · exact Or.inl h.symm
    · exact Or.inr (fileEntryAt_mem_names n rest h)
  | n, FSEntries.cons m FSNode.other rest => by
    intro h
    rw [show FileEntryAt n (FSEntries.cons m FSNode.other rest) =
          (m == n || FileEntryAt n rest) from rfl] at h
    simp only [Bool.or_eq_true, beq_iff_eq] at h
    simp [entryNames]
    rcases h with h | h
    · exact Or.inl h.symm
    · exact Or.inr (fileEntryAt_mem_names n rest h)
  | n, FSEntries.nil => by
    intro h
    simp [FileEntryAt] at h

theorem dirEntryAt_mem_names (n : String) (sub es : FSEntries)
    (h : DirEntryAt n sub es) : n ∈ entryNames es := by
  induction h with
  | head rest => simp [entryNames]
  | tail m t rest _ ih => simp [entryNames, ih]

theorem walkSub_of_dirEntry (p : PathT) (n : String) (sub es : FSEntries)
    (hd : DirEntryAt n sub es) (q : PathT)
    (hq : q ∈ walkFiles (p ++ [n]) (FSNode.dir sub)) : q ∈ walkSub p es := by
  induction hd with
  | head rest =>
    rw [show walkSub p (FSEntries.cons n (FSNode.dir sub) rest) =
          walkFiles (p ++ [n]) (FSNode.dir sub) ++ walkSub p rest from rfl]
    exact List.mem_append_left _ hq
  | tail m t rest _ ih =>
    cases t with
    | dir tsub =>
      rw [show walkSub p (FSEntries.cons m (FSNode.dir tsub) rest) =
            walkFiles (p ++ [m]) (FSNode.dir tsub) ++ walkSub p rest from rfl]
      exact List.mem_append_right _ ih
    | file =>
      rw [show walkSub p (FSEntries.cons m FSNode.file rest) = walkSub p rest from rfl]
      exact ih
    | other =>
      rw [show walkSub p (FSEntries.cons m FSNode.other rest) = walkSub p rest from rfl]
      exact ih

/-- Everything printed by the walk into subdirectories is reachable there. -/
theorem reach_of_mem_walkSub : ∀ (p : PathT) (es : FSEntries) (q : PathT),
    q ∈ walkSub p es →
      ∃ n sub, DirEntryAt n sub es ∧ ReachableFile (p ++ [n]) (FSNode.dir sub) q
  | p, FSEntries.cons n (FSNode.dir sub) rest, q => by
    rw [show walkSub p (FSEntries.cons n (FSNode.dir sub) rest) =
          walkFiles (p ++ [n]) (FSNode.dir sub) ++ walkSub p rest from rfl]
    rw [show walkFiles (p ++ [n]) (FSNode.dir sub) =
          walkHere (p ++ [n]) sub ++ walkSub (p ++ [n]) sub from rfl]
    rw [List.mem_append, List.mem_append]
    rintro ((h | h) | h)
    · obtain ⟨m, hm, hf⟩ := (mem_walkHere (p ++ [n]) sub q).1 h
      exact ⟨n, sub, DirEntryAt.head n sub rest,
        hm ▸ ReachableFile.here (p ++ [n]) sub m hf⟩
    · obtain ⟨m, sub2, hd, hr⟩ := reach_of_mem_walkSub (p ++ [n]) sub q h
      exact ⟨n, sub, DirEntryAt.head n sub rest,
        ReachableFile.sub (p ++ [n]) sub m sub2 q hd hr⟩
    · obtain ⟨m, sub2, hd, hr⟩ := reach_of_mem_walkSub p rest q h
      exact ⟨m, sub2, DirEntryAt.tail m sub2 n (FSNode.dir sub) rest hd, hr⟩
  | p, FSEntries.cons n FSNode.file rest, q => by
    rw [show walkSub p (FSEntries.cons n FSNode.file rest) = walkSub p rest from rfl]
    intro h
    obtain ⟨m, sub2, hd, hr⟩ := reach_of_mem_walkSub p rest q h
    exact ⟨m, sub2, DirEntryAt.tail m sub2 n FSNode.file rest hd, hr⟩
  | p, FSEntries.cons n FSNode.other rest, q => by
    rw [show walkSub p (FSEntries.cons n FSNode.other rest) = walkSub p rest from rfl]
    intro h
    obtain ⟨m, sub2, hd, hr⟩ := reach_of_mem_walkSub p rest q h
    exact ⟨m, sub2, DirEntryAt.tail m sub2 n FSNode.other rest hd, hr⟩
  | _, FSEntries.nil, _ => by
    intro h
    simp [walkSub] at h

/-- A path in the walk of a directory is a reachable leaf file of it. -/
theorem reach_of_mem_walk (p : PathT) (es : FSEntries) (q : PathT)
    (h : q ∈ walkFiles p (FSNode.dir es)) : ReachableFile p (FSNode.dir es) q := by
  rw [show walkFiles p (FSNode.dir es) = walkHere p es ++ walkSub p es from rfl,
    List.mem_append] at h
  rcases h with h | h
  · obtain ⟨m, hm, hf⟩ := (mem_walkHere p es q).1 h
    exact hm ▸ ReachableFile.here p es m hf
  · obtain ⟨m, sub, hd, hr⟩ := reach_of_mem_walkSub p es q h
    exact ReachableFile.sub p es m sub q hd hr

/-- Every reachable leaf file of a directory appears in its walk. -/
theorem mem_walk_of_reach (p : PathT) (node : FSNode) (q : PathT)
    (h : ReachableFile p node q) : q ∈ walkFiles p node := by
  induction h with
  | here p es n hf =>
    rw [show walkFiles p (FSNode.dir es) = walkHere p es ++ walkSub p es from rfl]
    exact List.mem_append_left _ ((mem_walkHere p es (p ++ [n])).2 ⟨n, rfl, hf⟩)
  | sub p es n sub q hd _ ih =>
    rw [show walkFiles p (FSNode.dir es) = walkHere p es ++ walkSub p es from rfl]
    exact List.mem_append_right _ (walkSub_of_dirEntry p n sub es hd q ih)

theorem walkFiles_dir_extends (p : PathT) (es : FSEntries) (q : PathT)
    (h : q ∈ walkFiles p (FSNode.dir es)) : ∃ t, t ≠ [] ∧ q = p ++ t := by
  rw [show walkFiles p (FSNode.dir es) = walkHere p es ++ walkSub p es from rfl,
    List.mem_append] at h
  rcases h with h | h
  · obtain ⟨m, hm, _⟩ := (mem_walkHere p es q).1 h
    exact ⟨[m], by simp, hm⟩
  · obtain ⟨n, s, hq, _⟩ := walkSub_extends p es q h
    exact ⟨n :: s, by simp, hq⟩

theorem nodup_walkHere : ∀ (p : PathT) (es : FSEntries),
    (entryNames es).Nodup → (walkHere p es).Nodup
  | p, FSEntries.nil, _ => by simp [walkHere]
  | p, FSEntries.cons n (FSNode.dir sub) rest, hnd => by
    rw [show walkHere p (FSEntries.cons n (FSNode.dir sub) rest) = walkHere p rest from rfl]
    exact nodup_walkHere p rest (by
      rw [show entryNames (FSEntries.cons n (FSNode.dir sub) rest) =
            n :: entryNames rest from rfl] at hnd
      exact (List.nodup_cons.1 hnd).2)
  | p, FSEntries.cons n FSNode.file rest, hnd => by
    rw [show entryNames (FSEntries.cons n FSNode.file rest) =
          n :: entryNames rest from rfl] at hnd
    obtain ⟨hn, hnd'⟩ := List.nodup_cons.1 hnd
    rw [show walkHere p (FSEntries.cons n FSNode.file rest) =
          (p ++ [n]) :: walkHere p rest from rfl]
    refine List.nodup_cons.2 ⟨?_, nodup_walkHere p rest hnd'⟩
    intro hmem
    obtain ⟨m, hm, hf⟩ := (mem_walkHere p rest (p ++ [n])).1 hmem
    have : n = m := by
      have := List.append_cancel_left hm
      exact List.singleton_injective this
    exact hn (this ▸ fileEntryAt_mem_names m rest hf)
  | p, FSEntries.cons n FSNode.other rest, hnd => by
    rw [show entryNames (FSEntries.cons n FSNode.other rest) =
          n :: entryNames rest from rfl] at hnd
    obtain ⟨hn, hnd'⟩ := List.nodup_cons.1 hnd
    rw [show walkHere p (FSEntries.cons n FSNode.other rest) =
          (p ++ [n]) :: walkHere p rest from rfl]
    refine List.nodup_cons.2 ⟨?_, nodup_walkHere p rest hnd'⟩
    intro hmem
    obtain ⟨m, hm, hf⟩ := (mem_walkHere p rest (p ++ [n])).1 hmem
    have : n = m := by
      have := List.append_cancel_left hm
      exact List.singleton_injective this
    exact hn (this ▸ fileEntryAt_mem_names m rest hf)

mutual
theorem nodup_walkFiles : ∀ (p : PathT) (node : FSNode),
    wfNode node = true → (walkFiles p node).Nodup
  | _, FSNode.file, _ => by simp [walkFiles]
  | _, FSNode.other, _ => by simp [walkFiles]
  | p, FSNode.dir es, h => by
    rw [show wfNode (FSNode.dir es) =
          (decide (entryNames es).Nodup && wfEntries es) from rfl,
      Bool.and_eq_true, decide_eq_true_eq] at h
    obtain ⟨hnd, hwf⟩ := h
    rw [show walkFiles p (FSNode.dir es) = walkHere p es ++ walkSub p es from rfl]
    refine List.Nodup.append (nodup_walkHere p es hnd)
      (nodup_walkSub p es hnd hwf) ?_
    intro q hq hq'
    obtain ⟨m, hm, _⟩ := (mem_walkHere p es q).1 hq
    obtain ⟨n, s, hqe, hs⟩ := walkSub_extends p es q hq'
    rw [hm] at hqe
    have h1 : [m] = n :: s := List.append_cancel_left hqe
    exact hs (List.cons.inj h1).2.symm

theorem nodup_walkSub : ∀ (p : PathT) (es : FSEntries),
    (entryNames es).Nodup → wfEntries es = true → (walkSub p es).Nodup
  | _, FSEntries.nil, _, _ => by simp [walkSub]
  | p, FSEntries.cons n (FSNode.dir sub) rest, hnd, hwf => by
    rw [show entryNames (FSEntries.cons n (FSNode.dir sub) rest) =
          n :: entryNames rest from rfl] at hnd
    obtain ⟨hn, hnd'⟩ := List.nodup_cons.1 hnd
    rw [show wfEntries (FSEntries.cons n (FSNode.dir sub) rest) =
          (wfNode (FSNode.dir sub) && wfEntries rest) from rfl,
      Bool.and_eq_true] at hwf
    obtain ⟨hw1, hw2⟩ := hwf
    rw [show walkSub p (FSEntries.cons n (FSNode.dir sub) rest) =
          walkFiles (p ++ [n]) (FSNode.dir sub) ++ walkSub p rest from rfl]
    refine List.Nodup.append (nodup_walkFiles (p ++ [n]) (FSNode.dir sub) hw1)
      (nodup_walkSub p rest hnd' hw2) ?_
    intro q hq hq'
    obtain ⟨t, ht, hqe⟩ := walkFiles_dir_extends (p ++ [n]) sub q hq
    obtain ⟨n2, sub2, hd, hq2⟩ := mem_walkSub p rest q hq'
    obtain ⟨t2, ht2, hqe2⟩ := walkFiles_dir_extends (p ++ [n2]) sub2 q hq2
    rw [hqe, List.append_assoc] at hqe2
    rw [List.append_assoc] at hqe2
    have h1 : [n] ++ t = [n2] ++ t2 := List.append_cancel_left hqe2
    have h2 : n = n2 := by
      simpa using congrArg (fun l => l.head?) h1
    exact hn (h2 ▸ dirEntryAt_mem_names n2 sub2 rest hd)
  | p, FSEntries.cons n FSNode.file rest, hnd, hwf => by
    rw [show entryNames (FSEntries.cons n FSNode.file rest) =
          n :: entryNames rest from rfl] at hnd
    rw [show wfEntries (FSEntries.cons n FSNode.file rest) =
          (wfNode FSNode.file && wfEntries rest) from rfl, Bool.and_eq_true] at hwf
    rw [show walkSub p (FSEntries.cons n FSNode.file rest) = walkSub p rest from rfl]
    exact nodup_walkSub p rest (List.nodup_cons.1 hnd).2 hwf.2
  | p, FSEntries.cons n FSNode.other rest, hnd, hwf => by
    rw [show entryNames (FSEntries.cons n FSNode.other rest) =
          n :: entryNames rest from rfl] at hnd
    rw [show wfEntries (FSEntries.cons n FSNode.other rest) =
          (wfNode FSNode.other && wfEntries rest) from rfl, Bool.and_eq_true] at hwf
    rw [show walkSub p (FSEntries.cons n FSNode.other rest) = walkSub p rest from rfl]
    exact nodup_walkSub p rest (List.nodup_cons.1 hnd).2 hwf.2
end

theorem walk_len_entries : ∀ (p : PathT) (es : FSEntries),
    (walkHere p es).length + (walkSub p es).length = countEntries es
  | _, FSEntries.nil => rfl
  | p, FSEntries.cons n (FSNode.dir sub) rest => by
    have h1 := walk_len_entries (p ++ [n]) sub
    have h2 := walk_len_entries p rest
    rw [show walkHere p (FSEntries.cons n (FSNode.dir sub) rest) =
          walkHere p rest from rfl,
      show walkSub p (FSEntries.cons n (FSNode.dir sub) rest) =
          walkFiles (p ++ [n]) (FSNode.dir sub) ++ walkSub p rest from rfl,
      show walkFiles (p ++ [n]) (FSNode.dir sub) =
          walkHere (p ++ [n]) sub ++ walkSub (p ++ [n]) sub from rfl,
      show countEntries (FSEntries.cons n (FSNode.dir sub) rest) =
          countEntries sub + countEntries rest from rfl]
    simp only [List.length_append]
    omega
  | p, FSEntries.cons n FSNode.file rest => by
    have h2 := walk_len_entries p rest
    rw [show walkHere p (FSEntries.cons n FSNode.file rest) =
          (p ++ [n]) :: walkHere p rest from rfl,
      show walkSub p (FSEntries.cons n FSNode.file rest) = walkSub p rest from rfl,
      show countEntries (FSEntries.cons n FSNode.file rest) =
          1 + countEntries rest from rfl]
    simp only [List.length_cons]
    omega
  | p, FSEntries.cons n FSNode.other rest => by
    have h2 := walk_len_entries p rest
    rw [show walkHere p (FSEntries.cons n FSNode.other rest) =
          (p ++ [n]) :: walkHere p rest from rfl,
      show walkSub p (FSEntries.cons n FSNode.other rest) = walkSub p rest from rfl,
      show countEntries (FSEntries.cons n FSNode.other rest) =
          1 + countEntries rest from rfl]
    simp only [List.length_cons]
    omega

theorem walkFiles_dir_length (p : PathT) (es : FSEntries) :
    (walkFiles p (FSNode.dir es)).length = countFiles (FSNode.dir es) := by
  rw [show walkFiles p (FSNode.dir es) = walkHere p es ++ walkSub p es from rfl,
    show countFiles (FSNode.dir es) = countEntries es from rfl,
    List.length_append]
  exact walk_len_entries p es

theorem analyze_file_run_fst_path (stat : PathT → Except OSErr StatInfo)
    (f : PathT) (c : Int) (rec : AnalysisRecord)
    (h : (analyze_file_run stat f c).1 = some rec) : rec.file_path = f := by
  cases hs : stat f with
  | ok si =>
    rw [analyze_file_run_ok stat f c si hs] at h
    have := Option.some.inj h
    rw [← this]
  | error e =>
    rw [analyze_file_run_err stat f c e hs] at h
    exact Option.noConfusion h

/-- When every stat succeeds, reading the paths back out of the produced
dictionaries returns the walked path list unchanged. -/
theorem filterMap_paths_of_ok (stat : PathT → Except OSErr StatInfo) (c : Int) :
    ∀ (w : List PathT), (∀ f ∈ w, ∃ si, stat f = Except.ok si) →
      (w.map (fun f => (analyze_file_run stat f c).1)).filterMap
        (fun d => Option.map AnalysisRecord.file_path d) = w := by
  intro w hw
  induction w with
  | nil => rfl
  | cons f rest ih =>
    obtain ⟨si, hsi⟩ := hw f (List.mem_cons_self f rest)
    rw [List.map_cons, List.filterMap_cons, analyze_file_run_ok stat f c si hsi]
    simp only [Option.map_some']
    rw [ih (fun g hg => hw g (List.mem_cons_of_mem f hg))]

/-! ### Claim theorems -/

/-- C1: for every inspected file (a file whose stat succeeds), the result's
`is_dormant` flag is true iff both the last-access and last-modified
timestamps are strictly below the cutoff; in every other combination it is
false. -/
theorem c1_dormant_iff_both_timestamps_before_cutoff
    (stat : PathT → Except OSErr StatInfo) (file_path : PathT) (cutoff : Int)
    (si : StatInfo) (h : stat file_path = Except.ok si) :
    ∃ rec, analyze_file stat file_path cutoff = Except.ok (some rec, []) ∧
      (rec.is_dormant = true ↔ (si.st_atime < cutoff ∧ si.st_mtime < cutoff)) := by
  refine ⟨{ file_path := file_path
            permissions := filemode si.st_mode
            last_access_time := si.st_atime
            last_modified_time := si.st_mtime
            is_dormant := decide (si.st_atime < cutoff) && decide (si.st_mtime < cutoff) },
          ?_, ?_⟩
  · simp [analyze_file, analyze_file_run_ok stat file_path cutoff si h]
  · simp

/-- Witness for C1 at a concrete input: mode `0o100644`, atime 10,
mtime 20, cutoff 30. -/
theorem c1_dormant_iff_both_timestamps_before_cutoff_witness :
    ∃ rec, analyze_file (fun _ => Except.ok ⟨33188, 10, 20⟩) ["a"] 30 =
        Except.ok (some rec, []) ∧
      (rec.is_dormant = true ↔ ((10 : Int) < 30 ∧ (20 : Int) < 30)) :=
  c1_dormant_iff_both_timestamps_before_cutoff
    (fun _ => Except.ok ⟨33188, 10, 20⟩) ["a"] 30 ⟨33188, 10, 20⟩ rfl

/-- C6: a single-file root that is not excluded yields exactly one entry,
equal to that file's analysis; an excluded single-file root yields the
empty collection; in all cases a single-file root yields at most one
result. -/
theorem c6_single_file_root_yields_zero_or_one
    (stat : PathT → Except OSErr StatInfo) (now : Int) (path : PathT)
    (days : Int) (m : Option PathSpec) :
    (is_excluded path m = false →
      analyze_permissions stat now path days FSNode.file m =
        Except.ok ⟨[(analyze_file_run stat path (cutoff_timestamp now days)).1],
                   (analyze_file_run stat path (cutoff_timestamp now days)).2, 0⟩) ∧
    (is_excluded path m = true →
      analyze_permissions stat now path days FSNode.file m = Except.ok ⟨[], [], 0⟩) ∧
    (∀ out, analyze_permissions stat now path days FSNode.file m = Except.ok out →
      out.results.length ≤ 1) := by
  refine ⟨?_, ?_, ?_⟩
  · intro h
    simp [analyze_permissions, h, analyze_file]
  · intro h
    simp [analyze_permissions, h]
  · intro out hout
    by_cases h : is_excluded path m
    · simp [analyze_permissions, h] at hout
      simp [← hout]
    · simp [analyze_permissions, h, analyze_file] at hout
      simp [← hout]

/-- Witness for C6 at a concrete input: an unexcluded single-file root
with a successful stat yields exactly its analysis record. -/
theorem c6_single_file_root_yields_zero_or_one_witness :
    analyze_permissions (fun _ => Except.ok ⟨33188, 10, 20⟩) 100 ["a"] 1 FSNode.file none =
      Except.ok ⟨[(analyze_file_run (fun _ => Except.ok ⟨33188, 10, 20⟩) ["a"]
                    (cutoff_timestamp 100 1)).1],
                 (analyze_file_run (fun _ => Except.ok ⟨33188, 10, 20⟩) ["a"]
                    (cutoff_timestamp 100 1)).2, 0⟩ :=
  (c6_single_file_root_yields_zero_or_one
    (fun _ => Except.ok ⟨33188, 10, 20⟩) 100 ["a"] 1 none).1 rfl

/-- C7: when the root path is neither a regular file nor a directory, the
traversal logs exactly one error and returns the empty result
collection. -/
theorem c7_invalid_root_logs_error_and_returns_empty
    (stat : PathT → Except OSErr StatInfo) (now : Int) (path : PathT)
    (days : Int) (m : Option PathSpec) :
    analyze_permissions stat now path days FSNode.other m =
      Except.ok ⟨[], [LogEvent.error ("Path " ++ pathStr path ++ " is not a valid file or directory.")], 0⟩ ∧
    ∀ out, analyze_permissions stat now path days FSNode.other m = Except.ok out →
      out.results = [] ∧ errorCount out.logs = 1 := by
  refine ⟨rfl, ?_⟩
  intro out hout
  simp [analyze_permissions] at hout
  simp [← hout, errorCount]

/-- C10: `analyze_file` never propagates an `OSError` (it catches it and
returns the empty dictionary), so the `except OSError` handler in the
directory-walk loop never runs, and in the single-file branch a stat
failure appends the empty dictionary to the result collection. -/
theorem c10_analyze_file_never_raises :
    (∀ (stat : PathT → Except OSErr StatInfo) (p : PathT) (c : Int) (e : OSErr),
      analyze_file stat p c ≠ Except.error e) ∧
    (∀ (stat : PathT → Except OSErr StatInfo) (c : Int) (m : Option PathSpec)
        (fs : List PathT), (dirLoop stat c m fs).catchCount = 0) ∧
    (∀ (stat : PathT → Except OSErr StatInfo) (now : Int) (path : PathT)
        (days : Int) (m : Option PathSpec) (e : OSErr),
      is_excluded path m = false → stat path = Except.error e →
      analyze_permissions stat now path days FSNode.file m =
        Except.ok ⟨[none],
          [LogEvent.error ("Error getting file stats for " ++ pathStr path ++ ": " ++ e)], 0⟩) := by
  refine ⟨?_, ?_, ?_⟩
  · intro stat p c e h
    exact Except.noConfusion h
  · intro stat c m fs
    rw [dirLoop_eq]
  · intro stat now path days m e hex hstat
    simp [analyze_permissions, hex, analyze_file, analyze_file_run_err stat path _ e hstat]

/-- C9: with positive `days` the cutoff equals `now - days * 86400`; it is
computed once per run from `days`, and that single value is the one every
per-file inspection of the run receives (both in the directory walk and in
the single-file branch). -/
theorem c9_cutoff_once_now_minus_days_86400
    (stat : PathT → Except OSErr StatInfo) (now : Int) (path : PathT)
    (days : Int) (m : Option PathSpec) (_hpos : 0 < days) :
    cutoff_timestamp now days = now - days * 86400 ∧
    (∀ es, analyze_permissions stat now path days (FSNode.dir es) m =
      Except.ok ⟨((walkFiles path (FSNode.dir es)).filter fun f => !is_excluded f m).map
          (fun f => (analyze_file_run stat f (now - days * 86400)).1),
        (((walkFiles path (FSNode.dir es)).filter fun f => !is_excluded f m).map
          (fun f => (analyze_file_run stat f (now - days * 86400)).2)).flatten, 0⟩) ∧
    (is_excluded path m = false →
      analyze_permissions stat now path days FSNode.file m =
        Except.ok ⟨[(analyze_file_run stat path (now - days * 86400)).1],
                   (analyze_file_run stat path (now - days * 86400)).2, 0⟩) := by
  have hc : cutoff_timestamp now days = now - days * 86400 := by
    simp only [cutoff_timestamp]
    ring_nf
  refine ⟨hc, ?_, ?_⟩
  · intro es
    simp [analyze_permissions, dirLoop_eq, hc]
  · intro hex
    simp [analyze_permissions, hex, analyze_file, hc]

/-- Witness for C9 at a concrete input (`now = 100`, `days = 1`, a
single-file root with a successful stat). -/
theorem c9_cutoff_once_now_minus_days_86400_witness :
    cutoff_timestamp 100 1 = 100 - 1 * 86400 ∧
    (∀ es, analyze_permissions (fun _ => Except.ok ⟨33188, 10, 20⟩) 100 ["r"] 1
        (FSNode.dir es) none =
      Except.ok ⟨((walkFiles ["r"] (FSNode.dir es)).filter fun f => !is_excluded f none).map
          (fun f => (analyze_file_run (fun _ => Except.ok ⟨33188, 10, 20⟩) f
            ((100 : Int) - 1 * 86400)).1),
        (((walkFiles ["r"] (FSNode.dir es)).filter fun f => !is_excluded f none).map
          (fun f => (analyze_file_run (fun _ => Except.ok ⟨33188, 10, 20⟩) f
            ((100 : Int) - 1 * 86400)).2)).flatten, 0⟩) ∧
    (is_excluded ["r"] none = false →
      analyze_permissions (fun _ => Except.ok ⟨33188, 10, 20⟩) 100 ["r"] 1 FSNode.file none =
        Except.ok ⟨[(analyze_file_run (fun _ => Except.ok ⟨33188, 10, 20⟩) ["r"]
                      ((100 : Int) - 1 * 86400)).1],
                   (analyze_file_run (fun _ => Except.ok ⟨33188, 10, 20⟩) ["r"]
                      ((100 : Int) - 1 * 86400)).2, 0⟩) :=
  c9_cutoff_once_now_minus_days_86400
    (fun _ => Except.ok ⟨33188, 10, 20⟩) 100 ["r"] 1 none (by decide)

/-- C8: an unreadable exclusion-pattern source loads as `none` with one
warning (file missing) or error (other failure) logged; `is_excluded` with
an absent matcher is false for every path; and with a failed load the run
still enters the analysis, which runs with no exclusions. -/
theorem c8_exclude_load_failure_nonfatal_no_exclusions :
    (∀ (compile : List String → PathSpec) (f : String),
      load_exclude_patterns compile f ReadOutcome.notFound =
        (none, [LogEvent.warning ("Exclude file not found: " ++ f)])) ∧
    (∀ (compile : List String → PathSpec) (f : String) (e : String),
      load_exclude_patterns compile f (ReadOutcome.failed e) =
        (none, [LogEvent.error ("Error loading exclude file " ++ f ++ ": " ++ e)])) ∧
    (∀ p : PathT, is_excluded p none = false) ∧
    (∀ (stat : PathT → Except OSErr StatInfo) (now : Int)
        (compile : List String → PathSpec) (args : Args) (root : FSNode)
        (r : ReadOutcome) (f : String),
      args.exclude = some f → 0 < args.days →
      (r = ReadOutcome.notFound ∨ ∃ e, r = ReadOutcome.failed e) →
      (main_model stat now compile args true root r).entered_analysis = true ∧
      ∃ out, analyze_permissions stat now args.path args.days root none = Except.ok out ∧
        (main_model stat now compile args true root r).results = some out.results) := by
  refine ⟨fun _ _ => rfl, fun _ _ _ => rfl, fun _ => rfl, ?_⟩
  intro stat now compile args root r f hex hdays hr
  have hnotle : ¬args.days ≤ 0 := by omega
  have hload : (load_exclude_patterns compile f r).1 = none ∧
      ∃ l, load_exclude_patterns compile f r = (none, l) := by
    rcases hr with h | ⟨e, h⟩ <;> subst h <;> exact ⟨rfl, _, rfl⟩
  obtain ⟨out, hout⟩ := analyze_permissions_ok stat now args.path args.days root none
  obtain ⟨_, l, hl⟩ := hload
  constructor
  · simp [main_model, hnotle, hex, hl, hout]
  · exact ⟨out, hout, by simp [main_model, hnotle, hex, hl, hout]⟩

/-- Witness for C8 at a concrete input: a missing exclude file, valid
arguments, and an invalid root. -/
theorem c8_exclude_load_failure_nonfatal_no_exclusions_witness :
    (main_model (fun _ => Except.error "boom") 0 (fun _ _ => false)
        ⟨["r"], 365, "report.txt", some "ex"⟩ true FSNode.other
        ReadOutcome.notFound).entered_analysis = true ∧
    ∃ out, analyze_permissions (fun _ => Except.error "boom") 0 ["r"] 365
        FSNode.other none = Except.ok out ∧
      (main_model (fun _ => Except.error "boom") 0 (fun _ _ => false)
        ⟨["r"], 365, "report.txt", some "ex"⟩ true FSNode.other
        ReadOutcome.notFound).results = some out.results :=
  c8_exclude_load_failure_nonfatal_no_exclusions.2.2.2
    (fun _ => Except.error "boom") 0 (fun _ _ => false)
    ⟨["r"], 365, "report.txt", some "ex"⟩ FSNode.other ReadOutcome.notFound "ex"
    rfl (by decide) (Or.inl rfl)

/-- C3: a path matching an active exclusion pattern never yields a result:
in a directory traversal no produced record carries an excluded path, and
an excluded single-file root yields the empty collection. -/
theorem c3_excluded_paths_produce_no_result
    (stat : PathT → Except OSErr StatInfo) (now : Int) (path : PathT)
    (days : Int) (m : Option PathSpec) :
    (∀ es out, analyze_permissions stat now path days (FSNode.dir es) m = Except.ok out →
      ∀ rec, some rec ∈ out.results → is_excluded rec.file_path m = false) ∧
    (is_excluded path m = true →
      analyze_permissions stat now path days FSNode.file m = Except.ok ⟨[], [], 0⟩) := by
  constructor
  · intro es out hout rec hrec
    have hout' : out = dirLoop stat (cutoff_timestamp now days) m
        (walkFiles path (FSNode.dir es)) := by
      simp [analyze_permissions] at hout
      exact hout.symm
    rw [hout', dirLoop_eq] at hrec
    simp only [List.mem_map, List.mem_filter] at hrec
    obtain ⟨f, ⟨_, hfex⟩, hres⟩ := hrec
    cases hstat : stat f with
    | ok si =>
      rw [analyze_file_run_ok stat f _ si hstat] at hres
      have : rec.file_path = f := by
        have := Option.some.inj hres
        rw [← this]
      rw [this]
      simpa using hfex
    | error e =>
      rw [analyze_file_run_err stat f _ e hstat] at hres
      exact Option.noConfusion hres
  · intro h
    simp [analyze_permissions, h]

/-- Witness for C3 at a concrete input: an excluded single-file root
yields no result. -/
theorem c3_excluded_paths_produce_no_result_witness :
    analyze_permissions (fun _ => Except.ok ⟨33188, 10, 20⟩) 100 ["a"] 1
        FSNode.file (some fun _ => true) = Except.ok ⟨[], [], 0⟩ :=
  (c3_excluded_paths_produce_no_result (fun _ => Except.ok ⟨33188, 10, 20⟩)
    100 ["a"] 1 (some fun _ => true)).2 rfl

/-- C2 (the code at the claimed scenario): in a directory of `N = 2` files
where exactly one stat fails, the run completes with one logged error, but
the result collection has 2 entries, not `N - 1 = 1`: the failing file is
not omitted — `analyze_file` catches the `OSError` itself and its empty
dictionary is appended alongside the successful record. -/
theorem c2_single_stat_failure_appends_empty_dict :
    analyze_permissions demoStat 100 ["r"] 1 demoTree none =
      Except.ok ⟨[some ⟨["r", "a"], "-rw-r--r--", 10, 20, false⟩, none],
        [LogEvent.error "Error getting file stats for r/b: Permission denied"], 0⟩ ∧
    (walkFiles ["r"] demoTree).length = 2 ∧
    errorCount [LogEvent.error "Error getting file stats for r/b: Permission denied"] = 1 := by
  refine ⟨?_, rfl, rfl⟩
  rfl

/-- C4 corrected: with `days ≤ 0` and an existing root, the run is rejected
before the core analysis is entered — no traversal, no per-file stat — but
the root-path existence check (one filesystem read) happens before the
`days` validation, so the trace of filesystem reads is not empty. -/
theorem c4_days_nonpositive_rejected_after_exists_check
    (stat : PathT → Except OSErr StatInfo) (now : Int)
    (compile : List String → PathSpec) (args : Args) (root : FSNode)
    (er : ReadOutcome) (h : args.days ≤ 0) :
    main_model stat now compile args true root er =
      { entered_analysis := false, results := none
        logs := [LogEvent.error "Error: The number of days must be a positive integer."]
        fs_reads := [FsRead.existsCheck args.path] } := by
  simp [main_model, h]

/-- Witness for the corrected C4, at the concrete `days = 0` input. -/
theorem c4_days_nonpositive_rejected_after_exists_check_witness :
    main_model demoStat 100 (fun _ _ => false) daysZeroArgs true FSNode.file
        ReadOutcome.notFound =
      { entered_analysis := false, results := none
        logs := [LogEvent.error "Error: The number of days must be a positive integer."]
        fs_reads := [FsRead.existsCheck ["r"]] } :=
  c4_days_nonpositive_rejected_after_exists_check demoStat 100 (fun _ _ => false)
    daysZeroArgs FSNode.file ReadOutcome.notFound (by decide)

/-- Counterexample to C4 as stated: at `days = 0` on an existing root the
run is rejected (analysis never entered, no results), yet the list of
filesystem reads performed is not empty — the root existence check runs
before the `days` validation. -/
theorem c4_counterexample_exists_check_is_a_filesystem_read :
    (main_model demoStat 100 (fun _ _ => false) daysZeroArgs true FSNode.file
        ReadOutcome.notFound).entered_analysis = false ∧
    (main_model demoStat 100 (fun _ _ => false) daysZeroArgs true FSNode.file
        ReadOutcome.notFound).results = none ∧
    (main_model demoStat 100 (fun _ _ => false) daysZeroArgs true FSNode.file
        ReadOutcome.notFound).fs_reads ≠ [] := by
  refine ⟨rfl, rfl, ?_⟩
  intro h
  simp [main_model, daysZeroArgs] at h

/-- Witness for C10 at a concrete input: a failing stat on a single-file
root puts the empty dictionary into the results. -/
theorem c10_analyze_file_never_raises_witness :
    analyze_permissions (fun _ => Except.error "Permission denied") 100 ["x"] 1
        FSNode.file none =
      Except.ok ⟨[none],
        [LogEvent.error ("Error getting file stats for " ++ pathStr ["x"] ++ ": " ++ "Permission denied")], 0⟩ :=
  c10_analyze_file_never_raises.2.2 (fun _ => Except.error "Permission denied")
    100 ["x"] 1 none "Permission denied" rfl rfl

/-- C5: over a well-formed directory root with no exclusion patterns and
every stat succeeding, the traversal yields exactly as many results as
there are reachable leaf files; the produced paths are exactly the walked
paths, a result exists precisely for each reachable file, and the produced
paths contain no duplicates. -/
theorem c5_traversal_visits_every_reachable_file_once
    (stat : PathT → Except OSErr StatInfo) (now : Int) (path : PathT)
    (days : Int) (es : FSEntries)
    (hwf : wfNode (FSNode.dir es) = true)
    (hok : ∀ f ∈ walkFiles path (FSNode.dir es), ∃ si, stat f = Except.ok si) :
    ∃ out, analyze_permissions stat now path days (FSNode.dir es) none = Except.ok out ∧
      out.results.length = countFiles (FSNode.dir es) ∧
      out.results.filterMap (fun d => Option.map AnalysisRecord.file_path d) =
        walkFiles path (FSNode.dir es) ∧
      (∀ q, (∃ rec, some rec ∈ out.results ∧ rec.file_path = q) ↔
        ReachableFile path (FSNode.dir es) q) ∧
      (out.results.filterMap (fun d => Option.map AnalysisRecord.file_path d)).Nodup := by
  obtain ⟨out, hout⟩ := analyze_permissions_ok stat now path days (FSNode.dir es) none
  have hout' : out = dirLoop stat (cutoff_timestamp now days) none
      (walkFiles path (FSNode.dir es)) := by
    simp [analyze_permissions] at hout
    exact hout.symm
  have hfilter : ((walkFiles path (FSNode.dir es)).filter
      fun f => !is_excluded f none) = walkFiles path (FSNode.dir es) := by
    simp [is_excluded]
  have hres : out.results = (walkFiles path (FSNode.dir es)).map
      (fun f => (analyze_file_run stat f (cutoff_timestamp now days)).1) := by
    rw [hout', dirLoop_eq, hfilter]
  have hpaths : out.results.filterMap (fun d => Option.map AnalysisRecord.file_path d) =
      walkFiles path (FSNode.dir es) := by
    rw [hres]
    exact filterMap_paths_of_ok stat (cutoff_timestamp now days)
      (walkFiles path (FSNode.dir es)) hok
  refine ⟨out, hout, ?_, hpaths, ?_, ?_⟩
  · rw [hres, List.length_map]
    exact walkFiles_dir_length path es
  · intro q
    constructor
    · rintro ⟨rec, hmem, hq⟩
      rw [hres] at hmem
      obtain ⟨f, hf, hfe⟩ := List.mem_map.1 hmem
      have hp : rec.file_path = f := analyze_file_run_fst_path stat f _ rec hfe
      subst hq
      rw [hp]
      exact reach_of_mem_walk path es f hf
    · intro hreach
      have hq : q ∈ walkFiles path (FSNode.dir es) :=
        mem_walk_of_reach path (FSNode.dir es) q hreach
      obtain ⟨si, hsi⟩ := hok q hq
      refine ⟨⟨q, filemode si.st_mode, si.st_atime, si.st_mtime,
        decide (si.st_atime < cutoff_timestamp now days) &&
          decide (si.st_mtime < cutoff_timestamp now days)⟩, ?_, rfl⟩
      rw [hres]
      refine List.mem_map.2 ⟨q, hq, ?_⟩
      rw [analyze_file_run_ok stat q _ si hsi]
  · rw [hpaths]
    exact nodup_walkFiles path (FSNode.dir es) hwf

/-- Witness for C5 at a concrete input: a directory of two files with all
stats succeeding. -/
theorem c5_traversal_visits_every_reachable_file_once_witness :
    ∃ out, analyze_permissions (fun _ => Except.ok ⟨33188, 10, 20⟩) 100 ["r"] 1
        (FSNode.dir demoEntries) none = Except.ok out ∧
      out.results.length = countFiles (FSNode.dir demoEntries) ∧
      out.results.filterMap (fun d => Option.map AnalysisRecord.file_path d) =
        walkFiles ["r"] (FSNode.dir demoEntries) ∧
      (∀ q, (∃ rec, some rec ∈ out.results ∧ rec.file_path = q) ↔
        ReachableFile ["r"] (FSNode.dir demoEntries) q) ∧
      (out.results.filterMap (fun d => Option.map AnalysisRecord.file_path d)).Nodup :=
  c5_traversal_visits_every_reachable_file_once
    (fun _ => Except.ok ⟨33188, 10, 20⟩) 100 ["r"] 1 demoEntries (by decide)
    (fun f _ => ⟨⟨33188, 10, 20⟩, rfl⟩)

end PaTime
